import Mathlib

/-!
Shallow embedding of the randomized Bayesian hierarchical clustering core
(`rbhc.py`): the classes `rbhc` (recursive builder) and `rbhc_Node`
(split decision `as_split`, sampling helper `subsample_bhc`, and the
filtering pass `filter_data`).

Data rows are values of an arbitrary type `α` (a row of the numpy array).
Log-probabilities (`log_pi`, `log_marginal_likelihood` values) are `ℚ`.
The external collaborators — the exact clusterer `bhc` (module `bhc`,
not part of this repository's source) and the data model — enter as
function parameters, with their interface contracts modelled from the
spec as explicit predicates (`GoodClusterer`, `GoodSampler`).
-/

/-- Modelled from the spec: the part of the external ExactClusterer (`bhc`)
result that `rbhc_Node.filter_data` consumes — the probe tree root's two
children, each exposing its member rows (`.data`) and its log mixture
weight (`.log_pi`).  The `bhc` module itself is absent from the core
source; only this top-split interface is needed. -/
structure ProbeSplit (α : Type) where
  left_data : List α
  right_data : List α
  log_pi_left : ℚ
  log_pi_right : ℚ

/-- One iteration of the loop in `rbhc_Node.filter_data` (rbhc.py
lines 229–246): score the row `r` against the current left side plus `r`
and the current right side plus `r` (each `np.vstack` appends the row at
the end), and append `r` to the side with the larger score, the left one
on `left_prob >= right_prob`. -/
def filterStep {α : Type} (model : List α → ℚ) (piL piR : ℚ)
    (st : List α × List α) (r : α) : List α × List α :=
  if piL + model (st.1 ++ [r]) ≥ piR + model (st.2 ++ [r]) then
    (st.1 ++ [r], st.2)
  else
    (st.1, st.2 ++ [r])

/-- `rbhc_Node.filter_data` (rbhc.py lines 210–246) on the non-sampled
rows `rows`: start from the probe tree's two seed sides and fold the
per-row assignment over `rows`. -/
def filter_data {α : Type} (model : List α → ℚ) (probe : ProbeSplit α)
    (rows : List α) : List α × List α :=
  List.foldl (filterStep model probe.log_pi_left probe.log_pi_right)
    (probe.left_data, probe.right_data) rows

/-- `np.setdiff1d(np.arange(nk), sub_indexes, assume_unique=True)`
(rbhc.py lines 223–225): the indices `0..n-1` not in the subsample, in
ascending order (`setdiff1d` returns a sorted array). -/
def notsub_indexes (n : ℕ) (sub : List ℕ) : List ℕ :=
  (List.range n).filter (fun i => decide (i ∉ sub))

/-- Numpy fancy indexing `data[indexes]`: the rows of `data` at the given
indices, in index-list order (out-of-range indices yield nothing; every
use in the code has all indices in range). -/
def gather {α : Type} (data : List α) (idx : List ℕ) : List α :=
  idx.filterMap (fun i => data[i]?)

/-- `np.random.choice(np.arange(nk), sub_size, replace=False)` (rbhc.py
lines 205–206): the actual draw is abstracted by the oracle `sampler`;
numpy itself raises `ValueError` when a without-replacement sample larger
than the population is requested, modelled by `none`. -/
def np_random_choice {α : Type} (sampler : List α → List ℕ)
    (data : List α) (m : ℕ) : Option (List ℕ) :=
  if m ≤ data.length then some (sampler data) else none

/-- Outcome of `rbhc_Node.as_split`: either a filtered split into two
children's data (`rBHC_split = True`), or a terminal `bhc` clustering of
all the node's rows (`rBHC_split = False`; the leaf carries the rows
handed to `bhc`), or the numpy `ValueError` from an impossible
without-replacement draw. -/
inductive SplitOutcome (α : Type) where
  | split (left_child right_child : List α) : SplitOutcome α
  | leaf (tree_data : List α) : SplitOutcome α
  | valueError : SplitOutcome α
deriving DecidableEq

/-- `rbhc_Node.as_split` (rbhc.py lines 124–186): if the node's row count
`nk` exceeds `sub_size`, draw the subsample (`subsample_bhc`), cluster it
(the probe split), filter the remaining rows (`filter_data`) and return
the two children's data; otherwise hand all the rows to `bhc`. -/
def as_split {α : Type} (clusterer : List α → ProbeSplit α)
    (sampler : List α → List ℕ) (model : List α → ℚ)
    (sub_size : ℕ) (data : List α) : SplitOutcome α :=
  if sub_size < data.length then
    match np_random_choice sampler data sub_size with
    | some sub_idx =>
        let sub_data := gather data sub_idx
        let probe := clusterer sub_data
        let rows := gather data (notsub_indexes data.length sub_idx)
        let lr := filter_data model probe rows
        SplitOutcome.split lr.1 lr.2
    | none => SplitOutcome.valueError
  else
    SplitOutcome.leaf data

/-- The tree of terminal `bhc` clusterings produced by
`rbhc.recursive_split`: an internal node for each successful split, a
leaf holding the rows delegated to `bhc`. -/
inductive RTree (α : Type) where
  | node (l r : RTree α) : RTree α
  | leaf (tree_data : List α) : RTree α
deriving DecidableEq

/-- All rows appearing in the terminal leaves of a built tree. -/
def collectLeaves {α : Type} : RTree α → List α
  | RTree.node l r => collectLeaves l ++ collectLeaves r
  | RTree.leaf d => d

/-- Number of successful splits (internal nodes) in a built tree. -/
def splitCount {α : Type} : RTree α → ℕ
  | RTree.node l r => 1 + splitCount l + splitCount r
  | RTree.leaf _ => 0

/-- `rbhc.recursive_split` (rbhc.py lines 58–68): recursively split,
recursing into both children while `as_split` reports a split and
stopping at the leaves.  Python recurses without a depth bound; the
embedding carries explicit fuel and returns `none` when the fuel runs
out (the termination theorems show fuel `n + 1` always suffices). -/
def build {α : Type} (clusterer : List α → ProbeSplit α)
    (sampler : List α → List ℕ) (model : List α → ℚ) (sub_size : ℕ) :
    ℕ → List α → Option (RTree α)
  | 0, _ => none
  | fuel + 1, data =>
    match as_split clusterer sampler model sub_size data with
    | SplitOutcome.split l r =>
        match build clusterer sampler model sub_size fuel l,
              build clusterer sampler model sub_size fuel r with
        | some tl, some tr => some (RTree.node tl tr)
        | _, _ => none
    | SplitOutcome.leaf d => some (RTree.leaf d)
    | SplitOutcome.valueError => none

/-- Modelled from the spec: the RandomSampler contract — a draw for a
node with more than `m` rows returns `m` distinct in-range indices. -/
def GoodSampler {α : Type} (sampler : List α → List ℕ) (m : ℕ) : Prop :=
  ∀ data : List α, m < data.length →
    (sampler data).Nodup ∧ (sampler data).length = m ∧
      ∀ i ∈ sampler data, i < data.length

/-- Modelled from the spec: the ExactClusterer contract on inputs of two
or more rows — the probe tree root's two children partition the input
rows and are both non-empty. -/
def GoodClusterer {α : Type} (clusterer : List α → ProbeSplit α) : Prop :=
  ∀ rows : List α, 2 ≤ rows.length →
    ((clusterer rows).left_data ++ (clusterer rows).right_data).Perm rows ∧
      (clusterer rows).left_data ≠ [] ∧ (clusterer rows).right_data ≠ []

/-- Modelled from the spec: the batch variant of the filtering pass that
the spec contrasts with the implemented one — every non-sampled row is
scored against the static seed sides alone, never against the grown
sides. -/
def filter_data_batch {α : Type} (model : List α → ℚ) (probe : ProbeSplit α)
    (rows : List α) : List α × List α :=
  List.foldl
    (fun st r =>
      if probe.log_pi_left + model (probe.left_data ++ [r]) ≥
          probe.log_pi_right + model (probe.right_data ++ [r]) then
        (st.1 ++ [r], st.2)
      else
        (st.1, st.2 ++ [r]))
    (probe.left_data, probe.right_data) rows

/-- One step of `filter_data` instrumented with the argument lists it
hands to `data_model.log_marginal_likelihood`: the current left side
plus the row, then the current right side plus the row. -/
def filterStepCalls {α : Type} (model : List α → ℚ) (piL piR : ℚ)
    (acc : (List α × List α) × List (List α)) (r : α) :
    (List α × List α) × List (List α) :=
  (filterStep model piL piR acc.1 r,
    acc.2 ++ [acc.1.1 ++ [r], acc.1.2 ++ [r]])

/-- The sequence of argument lists handed to
`data_model.log_marginal_likelihood` during one `filter_data` pass, in
evaluation order. -/
def filter_data_calls {α : Type} (model : List α → ℚ) (probe : ProbeSplit α)
    (rows : List α) : List (List α) :=
  (List.foldl (filterStepCalls model probe.log_pi_left probe.log_pi_right)
    ((probe.left_data, probe.right_data), ([] : List (List α))) rows).2

/-- A concrete ExactClusterer for evaluation: first sampled row on the
left, the rest on the right, both log mixture weights zero. -/
def exClusterer : List ℤ → ProbeSplit ℤ :=
  fun rows => ⟨rows.take 1, rows.drop 1, 0, 0⟩

/-- A concrete sampler oracle for evaluation: always picks the first two
indices. -/
def exSampler : List ℤ → List ℕ := fun _ => List.range 2

/-- A concrete data model for evaluation: constant log marginal
likelihood. -/
def exModel : List ℤ → ℚ := fun _ => 0

/-- A concrete data model whose value depends on the number of rows —
it distinguishes grown sides from static seed sides. -/
def lenModel : List ℤ → ℚ := fun xs => if 3 ≤ xs.length then -10 else 0

/-- A concrete probe split for evaluation. -/
def exProbe : ProbeSplit ℤ := ⟨[0], [1], 0, 0⟩

example : filter_data exModel ⟨[(5 : ℤ)], [6], 0, 0⟩ [7] = ([5, 7], [6]) := by
  simp [filter_data, filterStep, exModel]

example : as_split exClusterer exSampler exModel 2 [(5 : ℤ), 6, 7] =
    SplitOutcome.split [5, 7] [6] := by
  simp [as_split, np_random_choice, gather, notsub_indexes, exClusterer, exSampler,
    filter_data, filterStep, exModel, List.range_succ]

example : build exClusterer exSampler exModel 2 4 [(5 : ℤ), 6, 7] =
    some (RTree.node (RTree.leaf [5, 7]) (RTree.leaf [6])) := by
  simp [build, as_split, np_random_choice, gather, notsub_indexes, exClusterer,
    exSampler, filter_data, filterStep, exModel, List.range_succ]

/-! ### Helper lemmas -/

theorem gather_range {α : Type} (data : List α) :
    gather data (List.range data.length) = data := by
  induction data with
  | nil => rfl
  | cons a t ih =>
    have hfun : ((fun i => (a :: t)[i]?) ∘ Nat.succ) = fun i => t[i]? := by
      funext i
      simp
    simp only [gather, List.length_cons, List.range_succ_eq_map,
      List.filterMap_cons, List.getElem?_cons_zero, List.filterMap_map, hfun]
    exact congrArg (a :: ·) ih

theorem gather_append {α : Type} (data : List α) (idx idx' : List ℕ) :
    gather data (idx ++ idx') = gather data idx ++ gather data idx' := by
  simp [gather]

theorem gather_perm {α : Type} (data : List α) {idx idx' : List ℕ}
    (h : idx.Perm idx') : (gather data idx).Perm (gather data idx') :=
  h.filterMap _

theorem gather_length {α : Type} (data : List α) (idx : List ℕ)
    (h : ∀ i ∈ idx, i < data.length) :
    (gather data idx).length = idx.length := by
  induction idx with
  | nil => rfl
  | cons i t ih =>
    have hi : i < data.length := h i (by simp)
    rw [gather, List.filterMap_cons, List.getElem?_eq_getElem hi]
    simpa [gather] using ih (fun j hj => h j (by simp [hj]))

theorem indexes_perm (n : ℕ) (sub : List ℕ) (hnd : sub.Nodup)
    (hlt : ∀ i ∈ sub, i < n) :
    (sub ++ notsub_indexes n sub).Perm (List.range n) := by
  have hnd2 : (notsub_indexes n sub).Nodup :=
    (List.nodup_range n).filter _
  have hdisj : ∀ i ∈ sub, i ∉ notsub_indexes n sub := by
    intro i hi hmem
    have := (List.mem_filter.1 hmem).2
    simp only [decide_eq_true_eq] at this
    exact this hi
  have hnil : (sub ++ notsub_indexes n sub).Nodup :=
    List.Nodup.append hnd hnd2 (fun i hi hj => hdisj i hi hj)
  refine (List.perm_ext_iff_of_nodup hnil (List.nodup_range n)).2 ?_
  intro a
  simp only [List.mem_append, notsub_indexes, List.mem_filter, List.mem_range,
    decide_eq_true_eq]
  constructor
  · rintro (h | ⟨h, _⟩)
    · exact hlt a h
    · exact h
  · intro h
    by_cases hs : a ∈ sub
    · exact Or.inl hs
    · exact Or.inr ⟨h, hs⟩

theorem filter_foldl_perm {α : Type} (model : List α → ℚ) (piL piR : ℚ)
    (rows : List α) :
    ∀ st : List α × List α,
      ((List.foldl (filterStep model piL piR) st rows).1 ++
        (List.foldl (filterStep model piL piR) st rows).2).Perm
        (st.1 ++ st.2 ++ rows) := by
  induction rows with
  | nil => intro st; simp
  | cons r rest ih =>
    intro st
    have hstep : ((filterStep model piL piR st r).1 ++
        (filterStep model piL piR st r).2).Perm (st.1 ++ st.2 ++ [r]) := by
      rw [← Multiset.coe_eq_coe]
      unfold filterStep
      by_cases h : piL + model (st.1 ++ [r]) ≥ piR + model (st.2 ++ [r]) <;>
        · simp only [h, if_pos, if_neg, not_false_eq_true, ← Multiset.coe_add]
          abel
    have hmain := ih (filterStep model piL piR st r)
    have htail : (st.1 ++ st.2 ++ [r] ++ rest).Perm (st.1 ++ st.2 ++ (r :: rest)) := by
      rw [← Multiset.coe_eq_coe]
      simp only [← Multiset.coe_add]
      have : ((r :: rest : List α) : Multiset α) = ↑([r] ++ rest : List α) := by
        simp
      rw [this]
      simp only [← Multiset.coe_add]
      abel
    simpa [List.foldl_cons] using (hmain.trans (hstep.append_right rest)).trans htail

theorem filter_data_perm {α : Type} (model : List α → ℚ)
    (probe : ProbeSplit α) (rows : List α) :
    ((filter_data model probe rows).1 ++ (filter_data model probe rows).2).Perm
      (probe.left_data ++ probe.right_data ++ rows) :=
  filter_foldl_perm model probe.log_pi_left probe.log_pi_right rows
    (probe.left_data, probe.right_data)

theorem filter_foldl_grow {α : Type} (model : List α → ℚ) (piL piR : ℚ)
    (rows : List α) :
    ∀ st : List α × List α,
      st.1.length ≤ (List.foldl (filterStep model piL piR) st rows).1.length ∧
      st.2.length ≤ (List.foldl (filterStep model piL piR) st rows).2.length := by
  induction rows with
  | nil => intro st; exact ⟨le_refl _, le_refl _⟩
  | cons r rest ih =>
    intro st
    have hs := ih (filterStep model piL piR st r)
    have h1 : st.1.length ≤ (filterStep model piL piR st r).1.length := by
      unfold filterStep
      by_cases h : piL + model (st.1 ++ [r]) ≥ piR + model (st.2 ++ [r]) <;>
        simp [h]
    have h2 : st.2.length ≤ (filterStep model piL piR st r).2.length := by
      unfold filterStep
      by_cases h : piL + model (st.1 ++ [r]) ≥ piR + model (st.2 ++ [r]) <;>
        simp [h]
    exact ⟨le_trans h1 hs.1, le_trans h2 hs.2⟩

theorem as_split_of_le {α : Type} (clusterer : List α → ProbeSplit α)
    (sampler : List α → List ℕ) (model : List α → ℚ) (sub_size : ℕ)
    (data : List α) (h : data.length ≤ sub_size) :
    as_split clusterer sampler model sub_size data = SplitOutcome.leaf data := by
  simp [as_split, Nat.not_lt.2 h]

theorem as_split_of_lt {α : Type} (clusterer : List α → ProbeSplit α)
    (sampler : List α → List ℕ) (model : List α → ℚ) (sub_size : ℕ)
    (data : List α) (h : sub_size < data.length) :
    as_split clusterer sampler model sub_size data =
      SplitOutcome.split
        (filter_data model (clusterer (gather data (sampler data)))
          (gather data (notsub_indexes data.length (sampler data)))).1
        (filter_data model (clusterer (gather data (sampler data)))
          (gather data (notsub_indexes data.length (sampler data)))).2 := by
  simp [as_split, h, np_random_choice, Nat.le_of_lt h]

theorem as_split_split_spec {α : Type} {clusterer : List α → ProbeSplit α}
    {sampler : List α → List ℕ} {model : List α → ℚ} {sub_size : ℕ}
    (hm : 2 ≤ sub_size) (hc : GoodClusterer clusterer)
    (hs : GoodSampler sampler sub_size) (d l r : List α)
    (h : as_split clusterer sampler model sub_size d = SplitOutcome.split l r) :
    (l ++ r).Perm d ∧ l ≠ [] ∧ r ≠ [] ∧
      l.length < d.length ∧ r.length < d.length := by
  by_cases hlt : sub_size < d.length
  · rw [as_split_of_lt clusterer sampler model sub_size d hlt] at h
    obtain ⟨hnd, hlen, hbound⟩ := hs d hlt
    set idx := sampler d with hidx
    set sub_data := gather d idx with hsub
    have hsublen : sub_data.length = sub_size := by
      rw [hsub, gather_length d idx hbound, hlen]
    have hsub2 : 2 ≤ sub_data.length := by omega
    obtain ⟨hperm, hlne, hrne⟩ := hc sub_data hsub2
    set probe := clusterer sub_data with hprobe
    set rows := gather d (notsub_indexes d.length idx) with hrows
    have hl : l = (filter_data model probe rows).1 := by
      injection h with h1 h2
      exact h1.symm
    have hr : r = (filter_data model probe rows).2 := by
      injection h with h1 h2
      exact h2.symm
    have hfperm : (l ++ r).Perm (probe.left_data ++ probe.right_data ++ rows) := by
      rw [hl, hr]
      exact filter_data_perm model probe rows
    have hall : (l ++ r).Perm d := by
      have h1 : (probe.left_data ++ probe.right_data ++ rows).Perm
          (sub_data ++ rows) := hperm.append_right rows
      have h2 : (sub_data ++ rows).Perm (gather d (idx ++ notsub_indexes d.length idx)) := by
        rw [gather_append, hsub, hrows]
      have h3 : (gather d (idx ++ notsub_indexes d.length idx)).Perm
          (gather d (List.range d.length)) :=
        gather_perm d (indexes_perm d.length idx hnd hbound)
      have h4 : gather d (List.range d.length) = d := gather_range d
      rw [h4] at h3
      exact hfperm.trans ((h1.trans h2).trans h3)
    have hgrow := filter_foldl_grow model probe.log_pi_left probe.log_pi_right rows
      (probe.left_data, probe.right_data)
    have hlpos : 0 < l.length := by
      rw [hl]
      calc 0 < probe.left_data.length := List.length_pos.2 hlne
        _ ≤ _ := hgrow.1
    have hrpos : 0 < r.length := by
      rw [hr]
      calc 0 < probe.right_data.length := List.length_pos.2 hrne
        _ ≤ _ := hgrow.2
    have hsum : l.length + r.length = d.length := by
      have := hall.length_eq
      simpa using this
    refine ⟨hall, ?_, ?_, ?_, ?_⟩
    · exact List.ne_nil_of_length_pos hlpos
    · exact List.ne_nil_of_length_pos hrpos
    · omega
    · omega
  · rw [as_split_of_le clusterer sampler model sub_size d (Nat.not_lt.1 hlt)] at h
    exact absurd h (by simp)

theorem build_sound {α : Type} {clusterer : List α → ProbeSplit α}
    {sampler : List α → List ℕ} {model : List α → ℚ} {sub_size : ℕ}
    (hm : 2 ≤ sub_size) (hc : GoodClusterer clusterer)
    (hs : GoodSampler sampler sub_size) :
    ∀ (fuel : ℕ) (data : List α), data.length < fuel →
      ∃ t, build clusterer sampler model sub_size fuel data = some t ∧
        (collectLeaves t).Perm data ∧ splitCount t ≤ data.length - 1 := by
  intro fuel
  induction fuel with
  | zero => intro data h; omega
  | succ f ih =>
    intro data h
    by_cases hlt : sub_size < data.length
    · obtain hsplit := as_split_of_lt clusterer sampler model sub_size data hlt
      set l := (filter_data model (clusterer (gather data (sampler data)))
        (gather data (notsub_indexes data.length (sampler data)))).1 with hldef
      set r := (filter_data model (clusterer (gather data (sampler data)))
        (gather data (notsub_indexes data.length (sampler data)))).2 with hrdef
      obtain ⟨hperm, hlne, hrne, hllen, hrlen⟩ :=
        as_split_split_spec hm hc hs data l r hsplit
      have hlf : l.length < f := by omega
      have hrf : r.length < f := by omega
      obtain ⟨tl, htl, htlperm, htlcount⟩ := ih l hlf
      obtain ⟨tr, htr, htrperm, htrcount⟩ := ih r hrf
      refine ⟨RTree.node tl tr, ?_, ?_, ?_⟩
      · simp only [build, hsplit, htl, htr]
      · have : (collectLeaves tl ++ collectLeaves tr).Perm (l ++ r) :=
          htlperm.append htrperm
        exact (this.trans hperm)
      · have hsum : l.length + r.length = data.length := by
          simpa using hperm.length_eq
        have h1 : 0 < l.length := List.length_pos.2 hlne
        have h2 : 0 < r.length := List.length_pos.2 hrne
        simp only [splitCount]
        omega
    · refine ⟨RTree.leaf data, ?_, ?_, ?_⟩
      · simp only [build, as_split_of_le clusterer sampler model sub_size data
          (Nat.not_lt.1 hlt)]
      · exact List.Perm.refl _
      · simp [splitCount]

theorem exSampler_good : GoodSampler exSampler 2 := by
  intro d hd
  refine ⟨List.nodup_range 2, List.length_range 2, ?_⟩
  intro i hi
  have h2 : i < 2 := List.mem_range.1 hi
  omega

theorem exClusterer_good : GoodClusterer exClusterer := by
  intro rows h2
  refine ⟨?_, ?_, ?_⟩
  · show (rows.take 1 ++ rows.drop 1).Perm rows
    rw [List.take_append_drop]
  · show rows.take 1 ≠ []
    apply List.ne_nil_of_length_pos
    rw [List.length_take]
    omega
  · show rows.drop 1 ≠ []
    apply List.ne_nil_of_length_pos
    rw [List.length_drop]
    omega

theorem filter_calls_aux {α : Type} (model : List α → ℚ) (piL piR : ℚ) :
    ∀ (rows : List α) (acc : (List α × List α) × List (List α)),
      (∀ xs ∈ acc.2, xs ≠ []) →
      ∀ xs ∈ (List.foldl (filterStepCalls model piL piR) acc rows).2, xs ≠ [] := by
  intro rows
  induction rows with
  | nil => intro acc h xs hx; exact h xs hx
  | cons r rest ih =>
    intro acc h
    rw [List.foldl_cons]
    apply ih
    intro xs hx
    simp only [filterStepCalls, List.mem_append, List.mem_cons,
      List.mem_singleton] at hx
    rcases hx with hx | hx | hx
    · exact h xs hx
    · rw [hx]; simp
    · rcases hx with hx | hx
      · rw [hx]; simp
      · simp at hx

/-! ### Heap-and-global-state model of the split decision

The Python methods mutate object attributes in place
(`self.sub_indexes`, `self.sub_bhc`, `self.left_data`,
`self.right_data`) and `np.random.choice` draws from — and thereby
advances — the process-global numpy random generator.  The store models
the object heap as a map from node identity to the node's mutable
fields, plus the allocation frontier and the global generator state
(abstracted to a counter that every draw advances by one; the drawn
index set is an oracle of the generator state and the node's data). -/

/-- The mutable fields of a `rbhc_Node` object. -/
structure NodeRec (α : Type) where
  data : List α
  sub_indexes : Option (List ℕ)
  sub_bhc : Option (ProbeSplit α)
  left_data : Option (List α)
  right_data : Option (List α)

/-- The object heap, allocation frontier and global random state. -/
structure Store (α : Type) where
  nodes : ℕ → Option (NodeRec α)
  next : ℕ
  rng : ℕ

/-- `rbhc_Node.as_split` acting on the heap: when the target node splits,
its own fields are filled in, two fresh child nodes are allocated, and
the global random state advances (the draw in `subsample_bhc`); in the
terminal branch nothing in the heap changes.  Returns the new store and
`rBHC_split`. -/
def as_split_store {α : Type} (clusterer : List α → ProbeSplit α)
    (sampler : ℕ → List α → List ℕ) (model : List α → ℚ) (sub_size : ℕ)
    (σ : Store α) (target : ℕ) : Store α × Bool :=
  match σ.nodes target with
  | none => (σ, false)
  | some nd =>
    if sub_size < nd.data.length then
      let idx := sampler σ.rng nd.data
      let probe := clusterer (gather nd.data idx)
      let rows := gather nd.data (notsub_indexes nd.data.length idx)
      let lr := filter_data model probe rows
      (⟨fun id =>
          if id = target then
            some ⟨nd.data, some idx, some probe, some lr.1, some lr.2⟩
          else if id = σ.next then some ⟨lr.1, none, none, none, none⟩
          else if id = σ.next + 1 then some ⟨lr.2, none, none, none, none⟩
          else σ.nodes id,
        σ.next + 2, σ.rng + 1⟩, true)
    else (σ, false)

/-- A concrete sampler oracle over the global random state. -/
def exStoreSampler : ℕ → List ℤ → List ℕ := fun _ _ => List.range 2

/-- A concrete two-node heap: node 0 holds three rows, node 1 one row. -/
def store1 : Store ℤ where
  nodes := fun id =>
    if id = 0 then some ⟨[5, 6, 7], none, none, none, none⟩
    else if id = 1 then some ⟨[9], none, none, none, none⟩
    else none
  next := 2
  rng := 0

/-! ### Claim theorems -/

/-- Claim C1: for every dataset and every subsample size (with the
ExactClusterer and sampler meeting their spec-modelled contracts),
running the recursive build and collecting every row from every terminal
leaf yields exactly the multiset of the input data, and at each split
the two children's data together contain every row of the node's data
exactly once — no duplication, no loss, at any recursion depth. -/
theorem partition_completeness {α : Type} (clusterer : List α → ProbeSplit α)
    (sampler : List α → List ℕ) (model : List α → ℚ) (sub_size : ℕ)
    (hm : 2 ≤ sub_size) (hc : GoodClusterer clusterer)
    (hs : GoodSampler sampler sub_size) (data : List α) :
    (∃ t, build clusterer sampler model sub_size (data.length + 1) data = some t ∧
        ((collectLeaves t : Multiset α) = (data : Multiset α))) ∧
    ∀ d l r : List α,
      as_split clusterer sampler model sub_size d = SplitOutcome.split l r →
        ((l ++ r : List α) : Multiset α) = (d : Multiset α) := by
  constructor
  · obtain ⟨t, hb, hp, _⟩ := build_sound hm hc hs (data.length + 1) data (by omega)
    exact ⟨t, hb, Multiset.coe_eq_coe.2 hp⟩
  · intro d l r h
    exact Multiset.coe_eq_coe.2 (as_split_split_spec hm hc hs d l r h).1

theorem partition_completeness_witness :
    (2 ≤ 2 ∧ GoodClusterer exClusterer ∧ GoodSampler exSampler 2) ∧
    (∃ t, build exClusterer exSampler exModel 2 4 [(5 : ℤ), 6, 7] = some t ∧
        ((collectLeaves t : Multiset ℤ) = (([5, 6, 7] : List ℤ) : Multiset ℤ))) ∧
    ∀ d l r : List ℤ,
      as_split exClusterer exSampler exModel 2 d = SplitOutcome.split l r →
        ((l ++ r : List ℤ) : Multiset ℤ) = (d : Multiset ℤ) :=
  ⟨⟨le_refl 2, exClusterer_good, exSampler_good⟩, by
    have h := partition_completeness exClusterer exSampler exModel 2 (le_refl 2)
      exClusterer_good exSampler_good [(5 : ℤ), 6, 7]
    simpa using h⟩

/-- Claim C3: for every dataset with `n` rows (with the spec-modelled
collaborator contracts), the recursive build terminates within at most
`n` splits — the embedding with fuel `n + 1` already returns a full
tree with at most `n` internal split nodes — because every split
produces two children each with strictly fewer than `n` rows, both
non-empty. -/
theorem termination_split_bound {α : Type} (clusterer : List α → ProbeSplit α)
    (sampler : List α → List ℕ) (model : List α → ℚ) (sub_size : ℕ)
    (hm : 2 ≤ sub_size) (hc : GoodClusterer clusterer)
    (hs : GoodSampler sampler sub_size) (data : List α) :
    (∃ t, build clusterer sampler model sub_size (data.length + 1) data = some t ∧
        splitCount t ≤ data.length) ∧
    ∀ d l r : List α,
      as_split clusterer sampler model sub_size d = SplitOutcome.split l r →
        l.length < d.length ∧ r.length < d.length ∧ l ≠ [] ∧ r ≠ [] := by
  constructor
  · obtain ⟨t, hb, _, hcount⟩ := build_sound hm hc hs (data.length + 1) data (by omega)
    exact ⟨t, hb, by omega⟩
  · intro d l r h
    obtain ⟨_, hl, hr, h1, h2⟩ := as_split_split_spec hm hc hs d l r h
    exact ⟨h1, h2, hl, hr⟩

theorem termination_split_bound_witness :
    (2 ≤ 2 ∧ GoodClusterer exClusterer ∧ GoodSampler exSampler 2) ∧
    (∃ t, build exClusterer exSampler exModel 2 4 [(5 : ℤ), 6, 7] = some t ∧
        splitCount t ≤ [(5 : ℤ), 6, 7].length) ∧
    ∀ d l r : List ℤ,
      as_split exClusterer exSampler exModel 2 d = SplitOutcome.split l r →
        l.length < d.length ∧ r.length < d.length ∧ l ≠ [] ∧ r ≠ [] :=
  ⟨⟨le_refl 2, exClusterer_good, exSampler_good⟩, by
    have h := termination_split_bound exClusterer exSampler exModel 2 (le_refl 2)
      exClusterer_good exSampler_good [(5 : ℤ), 6, 7]
    simpa using h⟩

/-- Claim C2 counterexample: calling `as_split` with `sub_size = 2` on a
one-row node does not raise any error — `nk > sub_size` is false, so the
terminal branch runs and all rows go to the exact clusterer; in
particular no `InsufficientDataError` exists anywhere in the code. -/
theorem oversize_subsample_no_error_cex :
    as_split exClusterer exSampler exModel 2 [(5 : ℤ)] = SplitOutcome.leaf [5] ∧
    SplitOutcome.leaf [(5 : ℤ)] ≠ (SplitOutcome.valueError : SplitOutcome ℤ) := by
  constructor
  · exact as_split_of_le exClusterer exSampler exModel 2 [(5 : ℤ)] (by decide)
  · decide

/-- Claim C2 amended: calling the split decision with `subsampleSize`
strictly greater than the node's row count takes the terminal branch —
`didSplit = false`, all rows delegated to the exact clusterer, no
sampling, no error of any kind; only a direct call of the sampling
helper with such a size would fail, inside `np.random.choice` itself
(numpy `ValueError`), with no prior check and no `InsufficientDataError`
(the code defines no such error). -/
theorem oversize_subsample_terminal {α : Type} (clusterer : List α → ProbeSplit α)
    (sampler : List α → List ℕ) (model : List α → ℚ) (sub_size : ℕ)
    (data : List α) (h : data.length < sub_size) :
    as_split clusterer sampler model sub_size data = SplitOutcome.leaf data ∧
    np_random_choice sampler data sub_size = none := by
  refine ⟨as_split_of_le clusterer sampler model sub_size data (le_of_lt h), ?_⟩
  rw [np_random_choice, if_neg (by omega)]

theorem oversize_subsample_terminal_witness :
    ([(5 : ℤ)].length < 2) ∧
    (as_split exClusterer exSampler exModel 2 [(5 : ℤ)] = SplitOutcome.leaf [5] ∧
      np_random_choice exSampler [(5 : ℤ)] 2 = none) :=
  ⟨by decide,
    oversize_subsample_terminal exClusterer exSampler exModel 2 [(5 : ℤ)] (by decide)⟩

/-- Claim C4: in the filtering loop, starting from the two seed sides,
a row is appended to the left side exactly when
`log_pi_left + logML(current left side plus the row)` is greater than or
equal to `log_pi_right + logML(current right side plus the row)`, and to
the right side otherwise; an exact tie goes to the left. -/
theorem filter_rule_tie_left {α : Type} (model : List α → ℚ)
    (probe : ProbeSplit α) (rows : List α) :
    filter_data model probe rows =
      List.foldl (filterStep model probe.log_pi_left probe.log_pi_right)
        (probe.left_data, probe.right_data) rows ∧
    ∀ (piL piR : ℚ) (st : List α × List α) (r : α),
      (piL + model (st.1 ++ [r]) ≥ piR + model (st.2 ++ [r]) →
          filterStep model piL piR st r = (st.1 ++ [r], st.2)) ∧
      (¬ piL + model (st.1 ++ [r]) ≥ piR + model (st.2 ++ [r]) →
          filterStep model piL piR st r = (st.1, st.2 ++ [r])) ∧
      (piL + model (st.1 ++ [r]) = piR + model (st.2 ++ [r]) →
          filterStep model piL piR st r = (st.1 ++ [r], st.2)) := by
  refine ⟨rfl, ?_⟩
  intro piL piR st r
  refine ⟨?_, ?_, ?_⟩
  · intro h
    rw [filterStep, if_pos h]
  · intro h
    rw [filterStep, if_neg h]
  · intro h
    rw [filterStep, if_pos h.ge]

theorem filter_rule_tie_left_witness :
    ((0 : ℚ) + exModel ([0] ++ [9]) = 0 + exModel ([1] ++ [9])) ∧
    filterStep exModel 0 0 ([(0 : ℤ)], [1]) 9 = ([0, 9], [1]) := by
  have h : (0 : ℚ) + exModel ([0] ++ [9]) = 0 + exModel ([1] ++ [9]) := by
    norm_num [exModel]
  exact ⟨h, ((filter_rule_tie_left exModel exProbe []).2 0 0 ([0], [1]) 9).2.2 h⟩

/-- Claim C5: the filtering is incremental, not batch — the sides grow
as rows are assigned, each later likelihood evaluation is conditioned on
the rows already assigned to that side in the same pass (the grown left
side `[0, 2, 3]` is evaluated, the static-seed set `[0, 3]` never is),
and the result differs from scoring every row against the original seed
sides alone. -/
theorem incremental_not_batch :
    filter_data lenModel exProbe [2, 3] ≠ filter_data_batch lenModel exProbe [2, 3] ∧
    [0, 2, 3] ∈ filter_data_calls lenModel exProbe [2, 3] ∧
    [0, 3] ∉ filter_data_calls lenModel exProbe [2, 3] := by
  have hinc : filter_data lenModel exProbe [2, 3] = ([0, 2], [1, 3]) := by
    norm_num [filter_data, filterStep, lenModel, exProbe]
  have hbatch : filter_data_batch lenModel exProbe [2, 3] = ([0, 2, 3], [1]) := by
    norm_num [filter_data_batch, lenModel, exProbe]
  have hcalls : filter_data_calls lenModel exProbe [2, 3] =
      [[0, 2], [1, 2], [0, 2, 3], [1, 3]] := by
    norm_num [filter_data_calls, filterStepCalls, filterStep, lenModel, exProbe]
  refine ⟨?_, ?_, ?_⟩
  · rw [hinc, hbatch]
    decide
  · rw [hcalls]
    decide
  · rw [hcalls]
    decide

/-- Claim C6: the split decision routes on the strict comparison
`nk > sub_size`: a node with more rows than the subsample size performs
the sample-and-filter split (`didSplit = true`, two children), while a
node with `nk ≤ sub_size` — including exact equality — returns
`didSplit = false` and hands all of its rows to the exact clusterer in
one call, with no sampling. -/
theorem strict_threshold_routing {α : Type} (clusterer : List α → ProbeSplit α)
    (sampler : List α → List ℕ) (model : List α → ℚ) (sub_size : ℕ)
    (data : List α) :
    (data.length ≤ sub_size →
      as_split clusterer sampler model sub_size data = SplitOutcome.leaf data) ∧
    (sub_size < data.length →
      ∃ l r, as_split clusterer sampler model sub_size data = SplitOutcome.split l r) := by
  constructor
  · exact as_split_of_le clusterer sampler model sub_size data
  · intro h
    exact ⟨_, _, as_split_of_lt clusterer sampler model sub_size data h⟩

theorem strict_threshold_routing_witness :
    (([(5 : ℤ), 6].length ≤ 2) ∧
      as_split exClusterer exSampler exModel 2 [(5 : ℤ), 6] =
        SplitOutcome.leaf [5, 6]) ∧
    ((2 < [(5 : ℤ), 6, 7].length) ∧
      ∃ l r, as_split exClusterer exSampler exModel 2 [(5 : ℤ), 6, 7] =
        SplitOutcome.split l r) :=
  ⟨⟨by decide,
      (strict_threshold_routing exClusterer exSampler exModel 2 [(5 : ℤ), 6]).1
        (by decide)⟩,
    ⟨by decide,
      (strict_threshold_routing exClusterer exSampler exModel 2 [(5 : ℤ), 6, 7]).2
        (by decide)⟩⟩

/-- Claim C7: the filtering pass never hands the data model an empty row
set — every evaluation it performs is a current side (which contains the
corresponding seed side) plus one row, and under the spec-modelled
ExactClusterer contract both seed sides are non-empty whenever filtering
is reached. -/
theorem no_empty_likelihood_call {α : Type} (model : List α → ℚ)
    (probe : ProbeSplit α) (rows : List α) :
    (∀ xs ∈ filter_data_calls model probe rows, xs ≠ []) ∧
    ∀ clusterer : List α → ProbeSplit α, GoodClusterer clusterer →
      ∀ sub_data : List α, 2 ≤ sub_data.length →
        (clusterer sub_data).left_data ≠ [] ∧
          (clusterer sub_data).right_data ≠ [] := by
  constructor
  · intro xs hx
    exact filter_calls_aux model probe.log_pi_left probe.log_pi_right rows
      ((probe.left_data, probe.right_data), []) (by simp) xs hx
  · intro c hc sd h2
    exact ⟨(hc sd h2).2.1, (hc sd h2).2.2⟩

theorem no_empty_likelihood_call_witness :
    ([0, 2] ∈ filter_data_calls lenModel exProbe [2, 3] ∧
      ([0, 2] : List ℤ) ≠ []) ∧
    (GoodClusterer exClusterer ∧ 2 ≤ [(5 : ℤ), 6].length ∧
      (exClusterer [5, 6]).left_data ≠ [] ∧
        (exClusterer [5, 6]).right_data ≠ []) := by
  have hcalls : filter_data_calls lenModel exProbe [2, 3] =
      [[0, 2], [1, 2], [0, 2, 3], [1, 3]] := by
    norm_num [filter_data_calls, filterStepCalls, filterStep, lenModel, exProbe]
  have hmem : [0, 2] ∈ filter_data_calls lenModel exProbe [2, 3] := by
    rw [hcalls]
    decide
  refine ⟨⟨hmem, (no_empty_likelihood_call lenModel exProbe [2, 3]).1 [0, 2] hmem⟩,
    exClusterer_good, by decide,
    (no_empty_likelihood_call lenModel exProbe [2, 3]).2 exClusterer
      exClusterer_good [5, 6] (by decide)⟩

/-- Claim C8 counterexample: the split decision does mutate state shared
between nodes and branches — the draw in `subsample_bhc` advances the
process-global numpy random generator: splitting node 0 of the concrete
two-node heap changes the global random state. -/
theorem split_mutates_shared_rng_cex :
    ((as_split_store exClusterer exStoreSampler exModel 2 store1 0).1).rng ≠
      store1.rng := by
  have h : ((as_split_store exClusterer exStoreSampler exModel 2 store1 0).1).rng = 1 := by
    norm_num [as_split_store, store1, exStoreSampler, exClusterer, exModel,
      gather, notsub_indexes, filter_data, filterStep, List.range_succ]
  rw [h]
  decide

/-- Claim C8 amended: beyond populating the target node's own fields
(subsample indices, probe tree, left and right data), allocating the two
fresh child nodes, and advancing the global random generator state, the
split decision mutates nothing: every other node in the heap is left
exactly as it was. -/
theorem as_split_store_frame {α : Type} (clusterer : List α → ProbeSplit α)
    (sampler : ℕ → List α → List ℕ) (model : List α → ℚ) (sub_size : ℕ)
    (σ : Store α) (target id : ℕ) (h1 : id ≠ target) (h2 : id < σ.next) :
    ((as_split_store clusterer sampler model sub_size σ target).1).nodes id =
      σ.nodes id := by
  rw [as_split_store]
  cases hnode : σ.nodes target with
  | none => rfl
  | some nd =>
    by_cases hlt : sub_size < nd.data.length
    · simp only [hlt, if_pos]
      have hn1 : id ≠ σ.next := by omega
      have hn2 : id ≠ σ.next + 1 := by omega
      simp [h1, hn1, hn2]
    · simp [hlt]

theorem as_split_store_frame_witness :
    ((1 ≠ 0) ∧ 1 < store1.next) ∧
    ((as_split_store exClusterer exStoreSampler exModel 2 store1 0).1).nodes 1 =
      store1.nodes 1 :=
  ⟨⟨by decide, by decide⟩,
    as_split_store_frame exClusterer exStoreSampler exModel 2 store1 0 1
      (by decide) (by decide)⟩

/-- Claim C9: with all inputs fixed the filtering pass is a function —
identical inputs give identical left and right data — and it visits the
non-sampled rows in ascending index order: the set difference of the
index ranges is produced sorted, and contains exactly the in-range
indices outside the subsample. -/
theorem filter_order_deterministic {α : Type} (n : ℕ) (sub : List ℕ) :
    List.Sorted (· < ·) (notsub_indexes n sub) ∧
    (∀ i, i ∈ notsub_indexes n sub ↔ i < n ∧ i ∉ sub) ∧
    ∀ (model : List α → ℚ) (probe : ProbeSplit α) (rows rows' : List α),
      rows = rows' → filter_data model probe rows = filter_data model probe rows' := by
  refine ⟨?_, ?_, ?_⟩
  · exact (List.sorted_lt_range n).sublist (List.filter_sublist _)
  · intro i
    simp [notsub_indexes, List.mem_filter, List.mem_range]
  · intro model probe rows rows' h
    rw [h]

theorem filter_order_deterministic_witness :
    List.Sorted (· < ·) (notsub_indexes 5 [1, 3]) ∧
    (([7] : List ℤ) = [7] ∧
      filter_data exModel exProbe [7] = filter_data exModel exProbe [7]) :=
  ⟨(filter_order_deterministic (α := ℤ) 5 [1, 3]).1,
    rfl,
    (filter_order_deterministic (α := ℤ) 5 [1, 3]).2.2 exModel exProbe [7] [7] rfl⟩

/-- Claim C10: a node with zero rows takes the terminal branch — the
strict comparison `nk > sub_size` fails for `nk = 0` against any
(non-negative) subsample size, so `didSplit = false` and the empty
dataset is handed directly to the exact clusterer; the core imposes no
minimum row count of its own. -/
theorem empty_data_to_bhc {α : Type} (clusterer : List α → ProbeSplit α)
    (sampler : List α → List ℕ) (model : List α → ℚ) (sub_size : ℕ)
    (data : List α) (h : data.length = 0) :
    as_split clusterer sampler model sub_size data = SplitOutcome.leaf data := by
  apply as_split_of_le
  omega

theorem empty_data_to_bhc_witness :
    (([] : List ℤ).length = 0) ∧
    as_split exClusterer exSampler exModel 2 ([] : List ℤ) =
      SplitOutcome.leaf [] :=
  ⟨rfl, empty_data_to_bhc exClusterer exSampler exModel 2 ([] : List ℤ) rfl⟩
